import Mathlib

/-
Verification of the frame-extraction core of PerfectFrameAI
(`extractor_service/app`): a shallow embedding, in Lean 4, of the
frame sampler (`video_processors.OpenCVVideo.get_next_frames`), the two
selection policies (`BestFramesExtractor._get_best_frames`,
`TopImagesExtractor._get_top_percent_images`), the best-frames pipeline
(`BestFramesExtractor.process`) with its input-directory listing
(`Extractor._list_input_directory_files`), the extraction manager
(`ExtractorManager`) and the NIMA model cache (`_NIMAModel`), together
with theorems settling the behavioural claims about them.

Machine reals (OpenCV attribute floats, NIMA scores) are modelled as ℚ
where arithmetic matters and as an arbitrary linear order where only
comparisons matter; Python exceptions are modelled with `Except`/`Option`;
the mutable class-level state of `ExtractorManager` and `_NIMAModel` is
modelled by explicit state passing.
-/

namespace PerfectFrame

/-- Mirrors `ExtractorConfig` from `extractor_service/app/schemas.py`
(directories and paths as strings; `top_images_percent`, a float in the
source, as ℚ).  The source field `processed_video_prefix` is here named
`processedVideoMark` (the filename marker added to already-processed
videos).  The `all_frames` flag read by `BestFramesExtractor.process`
is missing from the `schemas.py` copy under `src/` but is asserted by
the repository test `tests/extractor_service/unit/schemas_test.py` to
default to `False`; it is included here with that default. -/
structure ExtractorConfig where
  input_directory : String
  output_directory : String
  video_extensions : List String
  images_extensions : List String
  processedVideoMark : String
  batch_size : Nat
  compering_group_size : Nat
  top_images_percent : ℚ
  images_output_format : String
  weights_directory : String
  weights_filename : String
  weights_repo_url : String
  all_frames : Bool
deriving DecidableEq

/-- Default configuration values from `schemas.py` (field defaults). -/
def defaultConfig : ExtractorConfig where
  input_directory := "/app/input_directory"
  output_directory := "/app/output_directory"
  video_extensions := [".mp4"]
  images_extensions := [".jpg"]
  processedVideoMark := "frames_extracted_"
  batch_size := 100
  compering_group_size := 5
  top_images_percent := 90
  images_output_format := ".jpg"
  weights_directory := "/root/.cache/huggingface"
  weights_filename := "weights.h5"
  weights_repo_url := "https://huggingface.co/BKDDFS/nima_weights/resolve/main/"
  all_frames := false

/-! ## Frame sampler: `OpenCVVideo.get_next_frames`

The source opens the video, reads the validated integer attributes
`frame_rate` and `total_frames` (`_get_video_attribute`, which raises
`ValueError` unless the float attribute is positive and returns
`int(round(value))`), then iterates `range(0, total_frames, frame_rate)`;
for each index it calls `_read_next_frame` (which returns the decoded
frame, or `None` when `video.read()` fails), appends the result to the
current batch, yields the batch when it reaches `batch_size`, and yields
the final partial batch if non-empty.  We embed the loop with the
already-validated integer attributes as inputs and the decoder as a
function `Nat → Option α` (`none` = decode failure at that index). -/

/-- Number of chunks: `⌈n / g⌉` as natural division, the length of
`range(0, n, g)` for `g ≥ 1` and the number of groups `np.array_split`
produces for `n ≥ 1`. -/
def numGroups (n g : Nat) : Nat := (n + g - 1) / g

/-- Target frame indices `range(0, total_frames, frame_rate)`:
`[0, r, 2r, …] ∩ [0, total_frames)` for `frame_rate ≥ 1`. -/
def sampleIndices (frame_rate total_frames : Nat) : List Nat :=
  (List.range (numGroups total_frames frame_rate)).map (· * frame_rate)

/-- One iteration of the batching loop body in `get_next_frames`:
append the frame to the current batch; if the batch reached
`batch_size`, yield it (append to the output) and start a new one. -/
def batchStep (batch_size : Nat) (acc : List (List α) × List α) (frame : α) :
    List (List α) × List α :=
  if (acc.2 ++ [frame]).length = batch_size
  then (acc.1 ++ [acc.2 ++ [frame]], [])
  else (acc.1, acc.2 ++ [frame])

/-- The trailing `if frames_batch: yield frames_batch` of the source:
emit the final partial batch when it is non-empty. -/
def finishBatches (fin : List (List α) × List α) : List (List α) :=
  if fin.2.isEmpty then fin.1 else fin.1 ++ [fin.2]

/-- `OpenCVVideo.get_next_frames`, as the list of yielded batches:
fold the batching loop over the decoded frames at the target indices
and yield the final partial batch when non-empty.  Each list element is
`some frame` or, for a failed decode, the `None` that
`_read_next_frame` returns and the loop appends unconditionally. -/
def get_next_frames (decode : Nat → Option α)
    (frame_rate total_frames batch_size : Nat) : List (List (Option α)) :=
  finishBatches ((sampleIndices frame_rate total_frames).foldl
    (fun acc idx => batchStep batch_size acc (decode idx)) ([], []))

/-! ## Group-best selection: `BestFramesExtractor._get_best_frames`

The source splits the score array into consecutive groups of
`compering_group_size` via
`np.array_split(scores, np.arange(group_size, len(scores), group_size))`,
takes `np.argmax` within each group, and appends
`frames[index * group_size + best_index]`.  Scores (floats in the
source) are modelled over an arbitrary linear order, since only
comparisons are involved. -/

/-- `np.argmax`: the index of the maximum element, first occurrence on
ties.  (On an empty list NumPy raises; the value 0 returned here is
never used, because the source only applies argmax to the non-empty
groups that `np.array_split` produces from a non-empty array.) -/
def argmaxFirst {β} [LinearOrder β] : List β → Nat
  | [] => 0
  | x :: xs =>
    match xs[argmaxFirst xs]? with
    | none => 0
    | some m => if x < m then argmaxFirst xs + 1 else 0

/-- The comparison group with index `k`: for `k < numGroups len g`,
`np.array_split(scores, np.arange(g, len, g))` yields the slice
`scores[k*g : (k+1)*g]`. -/
def scoreGroup {β} (scores : List β) (group_size k : Nat) : List β :=
  (scores.drop (k * group_size)).take group_size

/-- The source's `global_index = index * group_size + best_index` for
group number `k`. -/
def bestGlobalIndex {β} [LinearOrder β] (scores : List β) (group_size k : Nat) : Nat :=
  k * group_size + argmaxFirst (scoreGroup scores group_size k)

/-- `BestFramesExtractor._get_best_frames`: one selected frame per
score group, `frames[global_index]` for group `k`.  The entry is `none`
exactly when the index is out of range, where Python would raise
`IndexError`; the theorems show this never happens when `frames` and
`scores` have equal length. -/
def get_best_frames {α β} [LinearOrder β] (frames : List α) (scores : List β)
    (group_size : Nat) : List (Option α) :=
  (List.range (numGroups scores.length group_size)).map
    (fun k => frames[bestGlobalIndex scores group_size k]?)

/-! ## Percentile selection: `TopImagesExtractor._get_top_percent_images`

`threshold = np.percentile(scores, top_percent)` followed by
`[img for img, score in zip(images, scores) if score >= threshold]`.
Scores are modelled as ℚ so that the linear interpolation inside
`np.percentile` is exact. -/

/-- `np.percentile(scores, p)` with NumPy's default linear-interpolation
method: sort the scores ascending, set `h = (p/100)·(n-1)`, and
interpolate between the order statistics at `⌊h⌋` and `⌊h⌋ + 1`
(the second `getD` falls back to `lo`, which matches NumPy at `h = n-1`
where no interpolation happens).  The ascending sort is embedded as an
insertion sort, which agrees with NumPy's sort on the resulting order
statistics. -/
def percentile (scores : List ℚ) (p : ℚ) : ℚ :=
  let s := scores.insertionSort (· ≤ ·)
  let h := p / 100 * ((s.length : ℚ) - 1)
  let i := h.floor.toNat
  let lo := s.getD i 0
  let hi := s.getD (i + 1) lo
  lo + (h - (h.floor : ℚ)) * (hi - lo)

/-- `TopImagesExtractor._get_top_percent_images`: keep, in input order,
every image whose score is `>=` the percentile threshold. -/
def get_top_percent_images {α} (images : List α) (scores : List ℚ)
    (top_percent : ℚ) : List α :=
  (images.zip scores).filterMap
    (fun q => if percentile scores top_percent ≤ q.2 then some q.1 else none)

/-- Modelled from the spec for comparison with the source: the
strict-greater-than variant of the selector that the specification
describes (retain every image whose score is strictly greater than the
percentile threshold). -/
def get_top_percent_images_strictSpec {α} (images : List α) (scores : List ℚ)
    (top_percent : ℚ) : List α :=
  (images.zip scores).filterMap
    (fun q => if percentile scores top_percent < q.2 then some q.1 else none)

/-! ## Extraction manager: `ExtractorManager`

Class-level mutable state (`_active_extractor`, `_config`) modelled by
explicit state passing.  `start_extractor` stores the config, runs the
admission check (`_check_is_already_extracting`, raising HTTP 409 when
an extractor is active), resolves the extractor class
(`ExtractorFactory.create_extractor`, raising `ValueError` on unknown
names), schedules `__run_extractor` as a FastAPI background task — run
only after the response is sent — and returns the feedback message. -/

/-- The class-level fields `_active_extractor` and `_config` of
`ExtractorManager`. -/
structure MgrState where
  active : Option String
  config : Option ExtractorConfig
deriving DecidableEq

/-- The state at process start (`_active_extractor = None`,
`_config = None`). -/
def initialMgrState : MgrState := ⟨none, none⟩

/-- `ExtractorManager.get_active_extractor`. -/
def get_active_extractor (s : MgrState) : Option String := s.active

/-- Python truthiness of `cls._active_extractor` as tested by
`if cls._active_extractor:` — `None` and the empty string are falsy. -/
def truthyName : Option String → Bool
  | none => false
  | some a => !(a == "")

/-- The errors `start_extractor` can raise: the HTTP 409 conflict from
`_check_is_already_extracting` (whose message interpolates the name of
the currently active extractor, carried here as data) and the
`ValueError` from the factory for an unknown extractor name. -/
inductive StartError where
  | conflict (active : String)
  | unknownExtractor (name : String)
deriving DecidableEq

/-- `ExtractorManager._check_is_already_extracting`: raise the 409
conflict naming the active extractor when one is set. -/
def check_is_already_extracting (s : MgrState) : Option StartError :=
  if truthyName s.active then some (.conflict (s.active.getD "")) else none

/-- The names `ExtractorFactory.create_extractor` recognises. -/
def knownExtractorName (name : String) : Bool :=
  name == "best_frames_extractor" || name == "top_images_extractor"

/-- The feedback message of `start_extractor` (the source interpolates
the name between single quotes). -/
def startedMessage (name : String) : String := name ++ " started."

/-- `ExtractorManager.start_extractor`, returning the class state as
left by the call together with the outcome.  Note the source assigns
`cls._config = config` before the admission check, so the stored config
is overwritten even on the rejected path.  `Except.ok` also means the
background task was scheduled (it has not run yet). -/
def start_extractor (s : MgrState) (config : ExtractorConfig) (name : String) :
    MgrState × Except StartError String :=
  let s1 : MgrState := { s with config := some config }
  match check_is_already_extracting s1 with
  | some e => (s1, .error e)
  | none =>
    if knownExtractorName name
    then (s1, .ok (startedMessage name))
    else (s1, .error (.unknownExtractor name))

/-- `ExtractorManager.__run_extractor`: set `_active_extractor`, run
`extractor(cls._config).process()` — construction plus `process`
combined in the `process` argument, whose `Except.error` outcome models
a raised exception — and in the `finally` block reset both class
fields to `None`.  The exception, if any, propagates alongside the
final state. -/
def run_extractor {ε} (process : Option ExtractorConfig → Except ε Unit)
    (name : String) (s : MgrState) : MgrState × Except ε Unit :=
  let s1 : MgrState := { s with active := some name }
  let r := process s1.config
  ({ active := none, config := none }, r)

/-! ## Two concurrent `start_extractor` requests

For the single-flight claim: the joint state of the manager class and
two in-flight requests A and B, with an interleaving semantics in which
the whole of `start_extractor` is one atomic step and the scheduled
background task `__run_extractor` is another.  This is coarser than
CPython interleavings (which may switch threads inside
`start_extractor`), so every trace representable here is realizable in
the source; FastAPI runs a request's background task only after its
response is sent. -/

/-- Manager class state plus the outcome each request has observed and
whether its scheduled background task is still pending. -/
structure TwoCallSys where
  mgr : MgrState
  resultA : Option (Except StartError String)
  resultB : Option (Except StartError String)
  pendingA : Bool
  pendingB : Bool

/-- Initial state: fresh manager, neither request has run. -/
def initTwoCallSys : TwoCallSys := ⟨initialMgrState, none, none, false, false⟩

/-- Atomic steps of the two-request system. -/
inductive CallAct where
  | startA | startB | runA | runB

/-- `Except.isOk`: whether `start_extractor` accepted the call. -/
def isAccepted {ε σ} : Except ε σ → Bool
  | .ok _ => true
  | .error _ => false

/-- One interleaving step: `startX` executes request X's
`start_extractor` call; `runX` executes X's scheduled background task
`__run_extractor` if one is pending. -/
def twoCallStep {ε} (procA procB : Option ExtractorConfig → Except ε Unit)
    (cfgA cfgB : ExtractorConfig) (nameA nameB : String) :
    CallAct → TwoCallSys → TwoCallSys
  | .startA, s =>
    let r := start_extractor s.mgr cfgA nameA
    { s with mgr := r.1, resultA := some r.2, pendingA := isAccepted r.2 }
  | .startB, s =>
    let r := start_extractor s.mgr cfgB nameB
    { s with mgr := r.1, resultB := some r.2, pendingB := isAccepted r.2 }
  | .runA, s =>
    if s.pendingA
    then { s with mgr := (run_extractor procA nameA s.mgr).1, pendingA := false }
    else s
  | .runB, s =>
    if s.pendingB
    then { s with mgr := (run_extractor procB nameB s.mgr).1, pendingB := false }
    else s

/-- Execution of a schedule (a list of atomic steps). -/
def twoCallExec {ε} (procA procB : Option ExtractorConfig → Except ε Unit)
    (cfgA cfgB : ExtractorConfig) (nameA nameB : String)
    (acts : List CallAct) (s : TwoCallSys) : TwoCallSys :=
  acts.foldl (fun st a => twoCallStep procA procB cfgA cfgB nameA nameB a st) s

/-! ## Input discovery and the best-frames pipeline

`Extractor._list_input_directory_files` filters a directory listing;
`BestFramesExtractor.process` iterates the discovered videos, extracts
and saves the best frames of each (`_extract_best_frames`), and then —
only then — renames the video by prepending the processed-video marker
(`_add_prefix`).  The pipeline is embedded as the sequence of its
externally visible effects (an event trace). -/

/-- One entry of the input directory: its filename and whether it is a
regular file (`entry.is_file()`). -/
structure FileEntry where
  name : String
  isFile : Bool
deriving DecidableEq

/-- Python `str.startswith`, computed structurally over the character
lists (extensionally `String.startsWith`, which is defined by
well-founded recursion and would not evaluate inside proofs). -/
def startsWithChars : List Char → List Char → Bool
  | _, [] => true
  | [], _ :: _ => false
  | c :: cs, d :: ds => (c == d) && startsWithChars cs ds

/-- `name.startswith(pat)`. -/
def strStartsWith (s pat : String) : Bool :=
  startsWithChars s.toList pat.toList

/-- The characters after the last dot of the list, when a dot occurs. -/
def afterLastDot : List Char → Option (List Char)
  | [] => none
  | c :: cs =>
    match afterLastDot cs with
    | some s => some s
    | none => if c == '.' then some cs else none

/-- `pathlib.Path.suffix`: the extension from the last dot on, and
empty when the name has no dot, ends in its only dot, or only starts
with one (pathlib requires `0 < rfind < len - 1`). -/
def suffixOf (name : String) : String :=
  match name.toList with
  | [] => ""
  | _ :: rest =>
    match afterLastDot rest with
    | none => ""
    | some s => if s.isEmpty then "" else "." ++ String.mk s

/-- `Extractor.EmptyInputDirectoryError`. -/
inductive ExtractErr where
  | emptyInputDirectory
deriving DecidableEq

/-- The comprehension condition of `_list_input_directory_files`:
a regular file, with a suffix among `extensions`, whose name does not
start with the excluded marker (when one is given). -/
def entryMatches (extensions : List String) (excludedMark : Option String)
    (e : FileEntry) : Bool :=
  e.isFile && extensions.contains (suffixOf e.name)
    && (match excludedMark with
        | none => true
        | some p => !(strStartsWith e.name p))

/-- `Extractor._list_input_directory_files`: keep the entries matching
the comprehension condition; raise `EmptyInputDirectoryError` when
nothing matches. -/
def list_input_directory_files (entries : List FileEntry)
    (extensions : List String) (excludedMark : Option String) :
    Except ExtractErr (List FileEntry) :=
  let files := entries.filter (entryMatches extensions excludedMark)
  if files.isEmpty then .error .emptyInputDirectory else .ok files

/-- The externally visible effects of the extraction pipelines:
evaluator construction, the concurrent write of one processed batch of
a video (`_save_images` inside `_extract_best_frames`), the rename
that prepends the processed-video marker (`_add_prefix`), and the
write of one processed image batch in the top-images pipeline. -/
inductive Event where
  | initEvaluator
  | save (video : String) (batchIdx : Nat)
  | rename (video : String)
  | saveImages (batchIdx : Nat)
deriving DecidableEq

/-- `BestFramesExtractor._extract_best_frames` as its effect trace:
one `save` per non-empty yielded batch, in batch order (empty batches
are skipped by `if not frames: continue`; scoring and group-best
selection happen between yield and save and emit no events). -/
def extract_best_frames_events {α} (video : String) (batches : List (List α)) :
    List Event :=
  batches.enum.filterMap
    (fun kb => if kb.2.isEmpty then none else some (.save video kb.1))

/-- `BestFramesExtractor.process` as its effect trace: discover the
unprocessed videos (raising `EmptyInputDirectoryError`, with no events,
when none match), construct the evaluator unless `all_frames`, then for
each video in listing order emit its save events followed by its
rename.  `batches` gives, per video name, the batches the sampler
yields for it. -/
def processBestFrames {α} (cfg : ExtractorConfig) (entries : List FileEntry)
    (batches : String → List (List α)) : List Event × Option ExtractErr :=
  match list_input_directory_files entries cfg.video_extensions
      (some cfg.processedVideoMark) with
  | .error e => ([], some e)
  | .ok videos =>
    ((if cfg.all_frames then [] else [Event.initEvaluator]) ++
      (videos.map (fun v =>
        extract_best_frames_events v.name (batches v.name)
          ++ [Event.rename v.name])).flatten,
      none)

/-- The video name an event concerns, if any. -/
def eventVideo : Event → Option String
  | .initEvaluator => none
  | .save v _ => some v
  | .rename v => some v
  | .saveImages _ => none

/-- `TopImagesExtractor.process` as its effect trace: list the images
(extensions filter only, no marker exclusion — raising
`EmptyInputDirectoryError`, with no events, when none match), construct
the evaluator, then score and save one batch per
`range(0, len(images_paths), batch_size)` iteration,
`⌈len / batch_size⌉` batches in all. -/
def processTopImages (cfg : ExtractorConfig) (entries : List FileEntry) :
    List Event × Option ExtractErr :=
  match list_input_directory_files entries cfg.images_extensions none with
  | .error e => ([], some e)
  | .ok images =>
    (Event.initEvaluator ::
      (List.range (numGroups images.length cfg.batch_size)).map
        Event.saveImages,
     none)

/-! ## NIMA model cache: `_NIMAModel`

Class-level fields `_config` and `_model`, with `get_model` populating
them only when `_model is None` and `reset` clearing both.  Model
construction (`_get_model_weights` followed by `_create_model`) is
abstracted as a function of the weights path; the weights path is
`Path(cls._config.weights_directory) / cls._config.weights_filename`. -/

/-- The class-level fields `_config` and `_model` of `_NIMAModel`,
with the model representation abstract. -/
structure NIMAState (μ : Type) where
  config : Option ExtractorConfig
  model : Option μ

/-- `_NIMAModel.reset`: both fields back to `None` (also the state at
process start). -/
def nimaReset (μ : Type) : NIMAState μ := ⟨none, none⟩

/-- The weights path `_get_model_weights` resolves from the stored
config. -/
def modelWeightsPath (cfg : ExtractorConfig) : String :=
  cfg.weights_directory ++ "/" ++ cfg.weights_filename

/-- `_NIMAModel.get_model`: when a model is cached, return it and leave
both class fields untouched (the `config` argument is ignored);
otherwise store the config, build the model from the weights path it
determines (`createModel` abstracts `_get_model_weights` +
`_create_model`), cache it and return it. -/
def get_model {μ} (createModel : String → μ) (s : NIMAState μ)
    (config : ExtractorConfig) : μ × NIMAState μ :=
  match s.model with
  | some m => (m, s)
  | none =>
    let m := createModel (modelWeightsPath config)
    (m, { config := some config, model := some m })

/-! ## Helper lemmas -/

lemma batchStep_foldl_flatten (batch_size : Nat) (l : List α) :
    ∀ (bs : List (List α)) (cur : List α),
      ((l.foldl (batchStep batch_size) (bs, cur)).1.flatten
          ++ (l.foldl (batchStep batch_size) (bs, cur)).2)
        = bs.flatten ++ cur ++ l := by
  induction l with
  | nil => simp
  | cons x xs ih =>
    intro bs cur
    simp only [List.foldl_cons]
    by_cases h : (cur ++ [x]).length = batch_size
    · have hstep : batchStep batch_size (bs, cur) x = (bs ++ [cur ++ [x]], []) := if_pos h
      rw [hstep, ih]
      simp
    · have hstep : batchStep batch_size (bs, cur) x = (bs, cur ++ [x]) := if_neg h
      rw [hstep, ih]
      simp

lemma finishBatches_flatten (fin : List (List α) × List α) :
    (finishBatches fin).flatten = fin.1.flatten ++ fin.2 := by
  unfold finishBatches
  by_cases h : fin.2.isEmpty
  · rw [if_pos h, List.isEmpty_iff.mp h, List.append_nil]
  · rw [if_neg h]
    simp

/-- The concatenation of all yielded batches is exactly the decode
result at each target index, in order, for every batch size. -/
lemma get_next_frames_flatten (decode : Nat → Option α)
    (frame_rate total_frames batch_size : Nat) :
    (get_next_frames decode frame_rate total_frames batch_size).flatten
      = (sampleIndices frame_rate total_frames).map decode := by
  unfold get_next_frames
  rw [finishBatches_flatten, ← List.foldl_map]
  have h := batchStep_foldl_flatten batch_size
    ((sampleIndices frame_rate total_frames).map decode) [] []
  simpa using h

lemma argmaxFirst_cons {β} [LinearOrder β] (x : β) (xs : List β) :
    argmaxFirst (x :: xs)
      = match xs[argmaxFirst xs]? with
        | none => 0
        | some m => if x < m then argmaxFirst xs + 1 else 0 := rfl

lemma argmaxFirst_cons_some {β} [LinearOrder β] {x : β} {xs : List β} {m : β}
    (hm : xs[argmaxFirst xs]? = some m) :
    argmaxFirst (x :: xs) = if x < m then argmaxFirst xs + 1 else 0 := by
  rw [argmaxFirst_cons, hm]

lemma argmaxFirst_lt_length {β} [LinearOrder β] (l : List β) (h : l ≠ []) :
    argmaxFirst l < l.length := by
  induction l with
  | nil => exact absurd rfl h
  | cons x xs ih =>
    rcases eq_or_ne xs [] with hxs | hxs
    · subst hxs
      exact Nat.zero_lt_one
    · have hlt := ih hxs
      obtain ⟨m, hm⟩ : ∃ m, xs[argmaxFirst xs]? = some m :=
        ⟨xs[argmaxFirst xs], List.getElem?_eq_getElem hlt⟩
      rw [argmaxFirst_cons_some hm]
      by_cases hcmp : x < m
      · rw [if_pos hcmp]
        exact Nat.succ_lt_succ hlt
      · rw [if_neg hcmp]
        exact Nat.succ_pos _

lemma le_argmaxFirst {β} [LinearOrder β] :
    ∀ (l : List β) (i : Nat) (x : β), l[i]? = some x →
      ∃ y, l[argmaxFirst l]? = some y ∧ x ≤ y := by
  intro l
  induction l with
  | nil =>
    intro i x hx
    simp at hx
  | cons a xs ih =>
    intro i x hx
    rcases eq_or_ne xs [] with hxs | hxs
    · subst hxs
      have hi : i = 0 := by
        cases i with
        | zero => rfl
        | succ n => simp at hx
      subst hi
      simp only [List.getElem?_cons_zero, Option.some.injEq] at hx
      subst hx
      exact ⟨a, rfl, le_refl a⟩
    · have hlt := argmaxFirst_lt_length xs hxs
      obtain ⟨m, hm⟩ : ∃ m, xs[argmaxFirst xs]? = some m :=
        ⟨xs[argmaxFirst xs], List.getElem?_eq_getElem hlt⟩
      by_cases hcmp : a < m
      · have hax : argmaxFirst (a :: xs) = argmaxFirst xs + 1 := by
          rw [argmaxFirst_cons_some hm, if_pos hcmp]
        rw [hax]
        refine ⟨m, by simpa using hm, ?_⟩
        cases i with
        | zero =>
          simp only [List.getElem?_cons_zero, Option.some.injEq] at hx
          subst hx
          exact le_of_lt hcmp
        | succ j =>
          simp only [List.getElem?_cons_succ] at hx
          obtain ⟨y, hy, hxy⟩ := ih j x hx
          have hym : y = m := Option.some.inj (hy.symm.trans hm)
          exact hym ▸ hxy
      · have hax : argmaxFirst (a :: xs) = 0 := by
          rw [argmaxFirst_cons_some hm, if_neg hcmp]
        rw [hax]
        refine ⟨a, by simp, ?_⟩
        cases i with
        | zero =>
          simp only [List.getElem?_cons_zero, Option.some.injEq] at hx
          subst hx
          exact le_refl a
        | succ j =>
          simp only [List.getElem?_cons_succ] at hx
          obtain ⟨y, hy, hxy⟩ := ih j x hx
          have hym : y = m := Option.some.inj (hy.symm.trans hm)
          subst hym
          exact hxy.trans (le_of_not_lt hcmp)

lemma lt_argmaxFirst {β} [LinearOrder β] :
    ∀ (l : List β) (i : Nat) (x : β), i < argmaxFirst l → l[i]? = some x →
      ∃ y, l[argmaxFirst l]? = some y ∧ x < y := by
  intro l
  induction l with
  | nil =>
    intro i x hi hx
    simp at hx
  | cons a xs ih =>
    intro i x hi hx
    rcases eq_or_ne xs [] with hxs | hxs
    · subst hxs
      have hax : argmaxFirst [a] = 0 := rfl
      rw [hax] at hi
      exact absurd hi (Nat.not_lt_zero i)
    · have hlt := argmaxFirst_lt_length xs hxs
      obtain ⟨m, hm⟩ : ∃ m, xs[argmaxFirst xs]? = some m :=
        ⟨xs[argmaxFirst xs], List.getElem?_eq_getElem hlt⟩
      by_cases hcmp : a < m
      · have hax : argmaxFirst (a :: xs) = argmaxFirst xs + 1 := by
          rw [argmaxFirst_cons_some hm, if_pos hcmp]
        rw [hax] at hi ⊢
        refine ⟨m, by simpa using hm, ?_⟩
        cases i with
        | zero =>
          simp only [List.getElem?_cons_zero, Option.some.injEq] at hx
          subst hx
          exact hcmp
        | succ j =>
          have hj : j < argmaxFirst xs := Nat.succ_lt_succ_iff.mp hi
          simp only [List.getElem?_cons_succ] at hx
          obtain ⟨y, hy, hxy⟩ := ih j x hj hx
          have hym : y = m := Option.some.inj (hy.symm.trans hm)
          exact hym ▸ hxy
      · have hax : argmaxFirst (a :: xs) = 0 := by
          rw [argmaxFirst_cons_some hm, if_neg hcmp]
        rw [hax] at hi
        exact absurd hi (Nat.not_lt_zero i)

lemma scoreGroup_length {β} (scores : List β) (group_size k : Nat) :
    (scoreGroup scores group_size k).length
      = min group_size (scores.length - k * group_size) := by
  simp [scoreGroup]

lemma mul_lt_of_lt_numGroups {n g k : Nat} (hg : 1 ≤ g) (hn : 1 ≤ n)
    (hk : k < numGroups n g) : k * g < n := by
  have h1 : k + 1 ≤ (n + g - 1) / g := hk
  have h2 : (k + 1) * g ≤ n + g - 1 := (Nat.le_div_iff_mul_le hg).mp h1
  have h3 : k * g + g ≤ n + g - 1 := by
    rw [Nat.succ_mul] at h2
    exact h2
  omega

lemma zip_filterMap_ge_threshold {α} :
    ∀ (images : List α) (scores : List ℚ) (t : ℚ),
      images.length = scores.length →
      (images.zip scores).filterMap
          (fun q => if t ≤ q.2 then some q.1 else none)
        = (List.range images.length).filterMap
            (fun i => if t ≤ scores.getD i 0 then images[i]? else none) := by
  intro images
  induction images with
  | nil =>
    intro scores t h
    simp
  | cons im ims ih =>
    intro scores t h
    cases scores with
    | nil => simp at h
    | cons sc scs =>
      simp only [List.length_cons, Nat.succ.injEq] at h
      rw [List.zip_cons_cons, List.filterMap_cons, List.length_cons,
        List.range_succ_eq_map, List.filterMap_cons, List.filterMap_map]
      have hcomp :
          ((fun i => if t ≤ (sc :: scs).getD i 0 then (im :: ims)[i]? else none)
              ∘ Nat.succ)
            = (fun i => if t ≤ scs.getD i 0 then ims[i]? else none) := by
        funext i
        simp
      rw [hcomp, ← ih scs t h]
      by_cases hc : t ≤ sc
      · simp [hc]
      · simp [hc]

lemma filterMap_zip_sublist {α} :
    ∀ (images : List α) (scores : List ℚ) (t : ℚ),
      ((images.zip scores).filterMap
          (fun q => if t ≤ q.2 then some q.1 else none)).Sublist images := by
  intro images
  induction images with
  | nil =>
    intro scores t
    simp
  | cons im ims ih =>
    intro scores t
    cases scores with
    | nil =>
      simp
    | cons sc scs =>
      rw [List.zip_cons_cons, List.filterMap_cons]
      by_cases hc : t ≤ sc
      · simp only [hc, if_pos]
        exact (ih scs t).cons₂ im
      · simp only [hc, if_neg, not_false_iff]
        exact (ih scs t).cons im

lemma list_input_ok_eq {entries : List FileEntry} {exts : List String}
    {mark : Option String} {videos : List FileEntry}
    (h : list_input_directory_files entries exts mark = .ok videos) :
    videos = entries.filter (entryMatches exts mark) := by
  unfold list_input_directory_files at h
  by_cases hc : (entries.filter (entryMatches exts mark)).isEmpty
  · rw [if_pos hc] at h
    exact absurd h (by simp)
  · rw [if_neg hc] at h
    exact (Except.ok.inj h).symm

lemma mem_extract_best_frames_events {α} {w : String} {bs : List (List α)}
    {e : Event} (h : e ∈ extract_best_frames_events w bs) :
    ∃ b, e = Event.save w b := by
  unfold extract_best_frames_events at h
  obtain ⟨a, _, ha⟩ := List.mem_filterMap.mp h
  by_cases hb : a.2.isEmpty
  · rw [if_pos hb] at ha
    exact absurd ha (by simp)
  · rw [if_neg hb] at ha
    exact ⟨a.1, (Option.some.inj ha).symm⟩

lemma eventVideo_of_mem_videoEvents {α} {w : String} {bs : List (List α)}
    {e : Event}
    (h : e ∈ extract_best_frames_events w bs ++ [Event.rename w]) :
    eventVideo e = some w := by
  rcases List.mem_append.mp h with h1 | h1
  · obtain ⟨b, rfl⟩ := mem_extract_best_frames_events h1
    rfl
  · simp only [List.mem_singleton] at h1
    subst h1
    rfl

lemma flatten_videoEvents_split {α} (batches : String → List (List α))
    (init : List Event) (hinit : ∀ e ∈ init, eventVideo e = none)
    (l1 l2 : List FileEntry) (v : FileEntry)
    (h1 : v.name ∉ l1.map FileEntry.name)
    (h2 : v.name ∉ l2.map FileEntry.name) :
    ∃ pre post,
      init ++ ((l1 ++ v :: l2).map (fun u =>
          extract_best_frames_events u.name (batches u.name)
            ++ [Event.rename u.name])).flatten
        = pre ++ Event.rename v.name :: post
      ∧ (∀ e ∈ post, eventVideo e ≠ some v.name)
      ∧ (∀ e ∈ pre, (∃ b, e = Event.save v.name b)
          ∨ eventVideo e ≠ some v.name) := by
  refine ⟨init ++ ((l1.map (fun u =>
      extract_best_frames_events u.name (batches u.name)
        ++ [Event.rename u.name])).flatten)
      ++ extract_best_frames_events v.name (batches v.name),
    ((l2.map (fun u =>
      extract_best_frames_events u.name (batches u.name)
        ++ [Event.rename u.name])).flatten), ?_, ?_, ?_⟩
  · rw [List.map_append, List.map_cons, List.flatten_append, List.flatten_cons]
    simp [List.append_assoc]
  · intro e he
    obtain ⟨lst, hlst, hel⟩ := List.mem_flatten.mp he
    obtain ⟨u, hu, rfl⟩ := List.mem_map.mp hlst
    rw [eventVideo_of_mem_videoEvents hel]
    intro hcontra
    exact h2 (List.mem_map.mpr ⟨u, hu, Option.some.inj hcontra⟩)
  · intro e he
    rcases List.mem_append.mp he with he1 | he2
    · rcases List.mem_append.mp he1 with he0 | heF
      · right
        rw [hinit e he0]
        simp
      · right
        obtain ⟨lst, hlst, hel⟩ := List.mem_flatten.mp heF
        obtain ⟨u, hu, rfl⟩ := List.mem_map.mp hlst
        rw [eventVideo_of_mem_videoEvents hel]
        intro hcontra
        exact h1 (List.mem_map.mpr ⟨u, hu, Option.some.inj hcontra⟩)
    · left
      exact mem_extract_best_frames_events he2

/-! ## Claim theorems -/

/-- C2 (amended): for every decoder, validated frame rate `r ≥ 1`,
validated frame count `n ≥ 1` and `batch_size ≥ 1`, `get_next_frames`
yields in total exactly `⌈n / r⌉ = (n + r - 1) / r` elements across all
its batches (counting every yielded element, decode failures included),
and this total is the same for every batch size. -/
theorem sampling_cadence_ceil {α} (decode : Nat → Option α)
    (frame_rate total_frames batch_size : Nat)
    (hr : 1 ≤ frame_rate) (hn : 1 ≤ total_frames) (hb : 1 ≤ batch_size) :
    ((get_next_frames decode frame_rate total_frames batch_size).flatten).length
        = (total_frames + frame_rate - 1) / frame_rate
    ∧ ∀ batch_size2, 1 ≤ batch_size2 →
        ((get_next_frames decode frame_rate total_frames batch_size2).flatten).length
          = (total_frames + frame_rate - 1) / frame_rate := by
  have key : ∀ b, ((get_next_frames decode frame_rate total_frames b).flatten).length
      = (total_frames + frame_rate - 1) / frame_rate := by
    intro b
    rw [get_next_frames_flatten, List.length_map]
    simp [sampleIndices, numGroups]
  exact ⟨key _, fun b2 _ => key b2⟩

/-- C2 witness: a 10-frame video at (rounded) rate 3 with batch size 4,
all decodes succeeding. -/
theorem sampling_cadence_ceil_witness :
    ((1 : Nat) ≤ 3 ∧ (1 : Nat) ≤ 10 ∧ (1 : Nat) ≤ 4)
    ∧ (((get_next_frames (fun i => some i) 3 10 4).flatten).length = (10 + 3 - 1) / 3
       ∧ ∀ batch_size2, 1 ≤ batch_size2 →
           ((get_next_frames (fun i => some i) 3 10 batch_size2).flatten).length
             = (10 + 3 - 1) / 3) :=
  ⟨by decide,
   sampling_cadence_ceil (fun i => some i) 3 10 4 (by decide) (by decide) (by decide)⟩

/-- C2 counterexample to the claim as stated: a 10-frame video at rate 3
yields 4 elements in total (indices 0, 3, 6, 9), not
`floor(10 / 3) = 3`. -/
theorem sampling_cadence_floor_cex :
    ((get_next_frames (fun i => some i) 3 10 4).flatten).length = 4
    ∧ (4 : Nat) ≠ 10 / 3 := by
  exact ⟨by decide, by decide⟩

/-- C5: evaluation of the sampler at a failing input — a 12-frame video
at rate 3 (target indices 0, 3, 6, 9) whose decode fails at index 3,
batch size 2.  Sampling is not aborted (indices 6 and 9 are still
yielded) but the failed index is not skipped: the `None` returned by
`_read_next_frame` is appended to the batch, so a yielded batch
contains an element for the failed index instead of the batches
containing exactly the successfully decoded frames. -/
theorem decode_failure_appends_none :
    get_next_frames (fun i => if i = 3 then none else some i) 3 12 2
      = [[some 0, none], [some 6, some 9]] := by decide

/-- C3: for every non-empty score list with one score per frame and
every `group_size ≥ 1`, `_get_best_frames` partitions the scores into
consecutive groups of `group_size` (last group possibly shorter) and
returns exactly `⌈len / group_size⌉` frames without any `IndexError`,
one per group in ascending group order — for group `k` the frame at
global position `k·group_size + argmax (group k)` — where the argmax
entry of each group has a score `≥` every score in its group and every
earlier entry of the group scores strictly less (so ties are broken by
first occurrence, `np.argmax` semantics). -/
theorem group_best_selection {α β} [LinearOrder β] (frames : List α)
    (scores : List β) (group_size : Nat) (hlen : scores.length = frames.length)
    (hg : 1 ≤ group_size) (hne : scores ≠ []) :
    ∃ best : List α,
      get_best_frames frames scores group_size = best.map some
      ∧ best.length = numGroups scores.length group_size
      ∧ ∀ k, k < numGroups scores.length group_size →
          best[k]? = frames[bestGlobalIndex scores group_size k]?
          ∧ (∀ (i : Nat) (x y : β), (scoreGroup scores group_size k)[i]? = some x →
              (scoreGroup scores group_size k)[argmaxFirst
                (scoreGroup scores group_size k)]? = some y →
              x ≤ y)
          ∧ (∀ (i : Nat) (x y : β), i < argmaxFirst (scoreGroup scores group_size k) →
              (scoreGroup scores group_size k)[i]? = some x →
              (scoreGroup scores group_size k)[argmaxFirst
                (scoreGroup scores group_size k)]? = some y →
              x < y) := by
  have hn1 : 0 < scores.length := List.length_pos.mpr hne
  have hkg : ∀ k, k < numGroups scores.length group_size →
      k * group_size < scores.length := fun k hk =>
    mul_lt_of_lt_numGroups hg hn1 hk
  have hgrp : ∀ k, k < numGroups scores.length group_size →
      scoreGroup scores group_size k ≠ [] := by
    intro k hk
    have h1 := hkg k hk
    have h2 := scoreGroup_length scores group_size k
    refine List.length_pos.mp ?_
    rw [h2]
    omega
  have hamax : ∀ k, k < numGroups scores.length group_size →
      argmaxFirst (scoreGroup scores group_size k)
        < (scoreGroup scores group_size k).length := fun k hk =>
    argmaxFirst_lt_length _ (hgrp k hk)
  have hidx : ∀ k, k < numGroups scores.length group_size →
      bestGlobalIndex scores group_size k < frames.length := by
    intro k hk
    have h1 := hkg k hk
    have h2 := hamax k hk
    rw [scoreGroup_length] at h2
    show k * group_size + argmaxFirst (scoreGroup scores group_size k)
      < frames.length
    omega
  refine ⟨(List.range (numGroups scores.length group_size)).pmap
      (fun k hk => frames.get ⟨bestGlobalIndex scores group_size k, hidx k hk⟩)
      (fun k hk => List.mem_range.mp hk), ?_, ?_, ?_⟩
  · unfold get_best_frames
    rw [List.map_pmap]
    rw [← List.pmap_eq_map
        (fun k => k ∈ List.range (numGroups scores.length group_size))
        (fun k => frames[bestGlobalIndex scores group_size k]?)
        (List.range (numGroups scores.length group_size)) (fun _ h => h)]
    apply List.pmap_congr
    intro k hk h1 h2
    rw [List.getElem?_eq_getElem (hidx k (List.mem_range.mp hk))]
    rfl
  · rw [List.length_pmap, List.length_range]
  · intro k hk
    refine ⟨?_, ?_, ?_⟩
    · have hkN : k < ((List.range (numGroups scores.length group_size)).pmap
          (fun k hk => frames.get ⟨bestGlobalIndex scores group_size k, hidx k hk⟩)
          (fun k hk => List.mem_range.mp hk)).length := by
        rw [List.length_pmap, List.length_range]
        exact hk
      rw [List.getElem?_eq_getElem hkN, List.getElem_pmap]
      rw [List.getElem?_eq_getElem (hidx k hk)]
      refine congrArg some ?_
      simp [List.get_eq_getElem, List.getElem_range]
    · intro i x y hx hy
      obtain ⟨y2, hy2, hxy⟩ := le_argmaxFirst _ i x hx
      exact (Option.some.inj (hy2.symm.trans hy)) ▸ hxy
    · intro i x y hi hx hy
      obtain ⟨y2, hy2, hxy⟩ := lt_argmaxFirst _ i x hi hx
      exact (Option.some.inj (hy2.symm.trans hy)) ▸ hxy

/-- C3 witness: the spec scenario — scores `[1, 5, 2, 9, 3]`, group
size 2, frames represented by `[10, 20, 30, 40, 50]`; the selected
frames are those at positions 1, 3 and 4. -/
theorem group_best_selection_witness :
    (([(1 : Int), 5, 2, 9, 3] : List Int).length = [10, 20, 30, 40, 50].length
     ∧ 1 ≤ 2 ∧ ([(1 : Int), 5, 2, 9, 3] : List Int) ≠ [])
    ∧ (∃ best : List Nat,
        get_best_frames [10, 20, 30, 40, 50] [(1 : Int), 5, 2, 9, 3] 2
          = best.map some
        ∧ best.length = numGroups ([(1 : Int), 5, 2, 9, 3] : List Int).length 2
        ∧ ∀ k, k < numGroups ([(1 : Int), 5, 2, 9, 3] : List Int).length 2 →
            best[k]? = [10, 20, 30, 40, 50][bestGlobalIndex
              ([(1 : Int), 5, 2, 9, 3] : List Int) 2 k]?
            ∧ (∀ (i : Nat) (x y : Int), (scoreGroup [(1 : Int), 5, 2, 9, 3] 2 k)[i]? = some x →
                (scoreGroup [(1 : Int), 5, 2, 9, 3] 2 k)[argmaxFirst
                  (scoreGroup [(1 : Int), 5, 2, 9, 3] 2 k)]? = some y →
                x ≤ y)
            ∧ (∀ (i : Nat) (x y : Int), i < argmaxFirst (scoreGroup [(1 : Int), 5, 2, 9, 3] 2 k) →
                (scoreGroup [(1 : Int), 5, 2, 9, 3] 2 k)[i]? = some x →
                (scoreGroup [(1 : Int), 5, 2, 9, 3] 2 k)[argmaxFirst
                  (scoreGroup [(1 : Int), 5, 2, 9, 3] 2 k)]? = some y →
                x < y))
    ∧ get_best_frames [10, 20, 30, 40, 50] [(1 : Int), 5, 2, 9, 3] 2
        = [some 20, some 40, some 50] :=
  ⟨⟨by decide, by decide, by decide⟩,
   group_best_selection [10, 20, 30, 40, 50] [(1 : Int), 5, 2, 9, 3] 2
     (by decide) (by decide) (by decide),
   by decide⟩

/-- C4 (amended): for every batch of images with one score per image,
`_get_top_percent_images` computes the `top_percent`-th percentile of
the scores by linear interpolation and retains, preserving input order,
exactly those images whose score is greater than **or equal to** that
threshold (the source tests `score >= threshold`, not strictly
greater): the result is the order-preserving selection of the images at
exactly the indices whose score meets the threshold, and a sublist of
the input. -/
theorem percentile_selection_ge {α} (images : List α) (scores : List ℚ)
    (top_percent : ℚ) (hlen : images.length = scores.length) :
    get_top_percent_images images scores top_percent
        = (List.range images.length).filterMap
            (fun i => if percentile scores top_percent ≤ scores.getD i 0
                      then images[i]? else none)
    ∧ (get_top_percent_images images scores top_percent).Sublist images :=
  ⟨zip_filterMap_ge_threshold images scores _ hlen,
   filterMap_zip_sublist images scores _⟩

/-- C4 witness: scores `[10, 20, 30, 40, 90]` at `percent = 80` give
threshold `50` (linear interpolation) and only the image scoring 90 is
kept. -/
theorem percentile_selection_ge_witness :
    (([0, 1, 2, 3, 4] : List Nat).length = [(10 : ℚ), 20, 30, 40, 90].length)
    ∧ (get_top_percent_images [0, 1, 2, 3, 4] [(10 : ℚ), 20, 30, 40, 90] 80
          = (List.range ([0, 1, 2, 3, 4] : List Nat).length).filterMap
              (fun i => if percentile [(10 : ℚ), 20, 30, 40, 90] 80
                            ≤ ([(10 : ℚ), 20, 30, 40, 90]).getD i 0
                        then ([0, 1, 2, 3, 4] : List Nat)[i]? else none)
       ∧ (get_top_percent_images [0, 1, 2, 3, 4]
            [(10 : ℚ), 20, 30, 40, 90] 80).Sublist [0, 1, 2, 3, 4])
    ∧ percentile [(10 : ℚ), 20, 30, 40, 90] 80 = 50
    ∧ get_top_percent_images [0, 1, 2, 3, 4] [(10 : ℚ), 20, 30, 40, 90] 80 = [4] :=
  ⟨by decide,
   percentile_selection_ge [0, 1, 2, 3, 4] [(10 : ℚ), 20, 30, 40, 90] 80 (by decide),
   by norm_num [percentile, List.insertionSort, List.orderedInsert, Rat.floor,
     Int.toNat],
   by norm_num [get_top_percent_images, percentile, List.insertionSort,
     List.orderedInsert, Rat.floor, Int.toNat, List.filterMap_cons]⟩

/-- C4 counterexample to the claim as stated: with two images scoring
`[5, 5]` and `percent = 90`, the percentile threshold is 5; the source
(`score >= threshold`) keeps both images, whereas the claimed strictly
greater rule would keep none. -/
theorem percentile_strictness_cex :
    get_top_percent_images [0, 1] [(5 : ℚ), 5] 90 = [0, 1]
    ∧ get_top_percent_images_strictSpec [0, 1] [(5 : ℚ), 5] 90 = []
    ∧ percentile [(5 : ℚ), 5] 90 = 5 := by
  refine ⟨?_, ?_, ?_⟩ <;>
    norm_num [get_top_percent_images, get_top_percent_images_strictSpec,
      percentile, List.insertionSort, List.orderedInsert, Rat.floor, Int.toNat,
      List.filterMap_cons]

/-- C6: whatever the outcome of `process()` — `Except.ok` for a normal
return or `Except.error` for any raised exception — `__run_extractor`
leaves both class fields reset to `None`, so `get_active_extractor`
returns `None` after the run, and the outcome itself propagates. -/
theorem guaranteed_release {ε} (process : Option ExtractorConfig → Except ε Unit)
    (name : String) (s : MgrState) :
    get_active_extractor (run_extractor process name s).1 = none
    ∧ (run_extractor process name s).1.config = none
    ∧ (run_extractor process name s).2 = process s.config :=
  ⟨rfl, rfl, rfl⟩

/-- C7 (amended): when an extractor is active, `start_extractor` fails
with the 409 conflict naming the currently active extractor and leaves
the active-extractor marker unchanged, but it does not leave the state
completely unchanged: the stored configuration is overwritten with the
rejected call's config, because `cls._config = config` runs before the
admission check. -/
theorem rejection_names_active_but_overwrites_config (s : MgrState)
    (config : ExtractorConfig) (name a : String)
    (ha : s.active = some a) (hane : a ≠ "") :
    (start_extractor s config name).2 = .error (.conflict a)
    ∧ (start_extractor s config name).1.active = s.active
    ∧ (start_extractor s config name).1.config = some config := by
  refine ⟨?_, ?_, ?_⟩ <;>
    simp [start_extractor, check_is_already_extracting, ha, truthyName, hane]

/-- C7 witness: a manager running the best-frames extractor rejects a
second call. -/
theorem rejection_names_active_but_overwrites_config_witness :
    ((⟨some "best_frames_extractor", some defaultConfig⟩ : MgrState).active
        = some "best_frames_extractor")
    ∧ "best_frames_extractor" ≠ ""
    ∧ ((start_extractor ⟨some "best_frames_extractor", some defaultConfig⟩
          { defaultConfig with batch_size := 7 } "top_images_extractor").2
        = .error (.conflict "best_frames_extractor")
       ∧ (start_extractor ⟨some "best_frames_extractor", some defaultConfig⟩
            { defaultConfig with batch_size := 7 } "top_images_extractor").1.active
          = (⟨some "best_frames_extractor", some defaultConfig⟩ : MgrState).active
       ∧ (start_extractor ⟨some "best_frames_extractor", some defaultConfig⟩
            { defaultConfig with batch_size := 7 } "top_images_extractor").1.config
          = some { defaultConfig with batch_size := 7 }) :=
  ⟨rfl, by decide,
   rejection_names_active_but_overwrites_config
     ⟨some "best_frames_extractor", some defaultConfig⟩
     { defaultConfig with batch_size := 7 } "top_images_extractor"
     "best_frames_extractor" rfl (by decide)⟩

/-- C7 counterexample to the claim as stated: the rejected call does
change the manager state — with the best-frames extractor active and
config `c₁` stored, a rejected call with `batch_size` 7 leaves the
stored config equal to the rejected call's config, not `c₁`. -/
theorem rejection_state_change_cex :
    ((start_extractor ⟨some "best_frames_extractor", some defaultConfig⟩
        { defaultConfig with batch_size := 7 } "top_images_extractor").2
      = .error (.conflict "best_frames_extractor"))
    ∧ (start_extractor ⟨some "best_frames_extractor", some defaultConfig⟩
        { defaultConfig with batch_size := 7 } "top_images_extractor").1
      ≠ ⟨some "best_frames_extractor", some defaultConfig⟩ := by
  exact ⟨rfl, by decide⟩

/-- C1: evaluation of the two-request system at the failing schedule —
request A (`best_frames_extractor`) and request B
(`top_images_extractor`) both execute the whole of `start_extractor`
before either scheduled background task runs, which is exactly what
happens when two requests arrive before FastAPI runs the first
response's background task.  Both calls are accepted: neither receives
the 409 conflict, refuting single-flight admission.  (The admission
check reads `_active_extractor`, which is set only inside the
background task, so the check-and-transition pair is not atomic.) -/
theorem single_flight_violation :
    (twoCallExec (ε := Unit) (fun _ => .ok ()) (fun _ => .ok ())
        defaultConfig defaultConfig "best_frames_extractor" "top_images_extractor"
        [.startA, .startB, .runA, .runB] initTwoCallSys).resultA
      = some (.ok (startedMessage "best_frames_extractor"))
    ∧ (twoCallExec (ε := Unit) (fun _ => .ok ()) (fun _ => .ok ())
        defaultConfig defaultConfig "best_frames_extractor" "top_images_extractor"
        [.startA, .startB, .runA, .runB] initTwoCallSys).resultB
      = some (.ok (startedMessage "top_images_extractor")) :=
  ⟨rfl, rfl⟩

/-- C8: in the best-frames pipeline's effect trace, for every
discovered video `v` (directory names distinct), the `rename` that adds
the processed-video marker to `v` occurs at a point after which no save
event of `v` appears — everything before it is either a save of `v` or
concerns another video — so every batch of `v` is saved before `v` is
renamed; and any video name that appears in a save or rename event does
not carry the processed-video marker, i.e. already-marked videos are
never selected for processing. -/
theorem mark_done_ordering {α} (cfg : ExtractorConfig) (entries : List FileEntry)
    (batches : String → List (List α)) (videos : List FileEntry)
    (v : FileEntry) (tr : List Event)
    (hnd : (entries.map FileEntry.name).Nodup)
    (hlist : list_input_directory_files entries cfg.video_extensions
        (some cfg.processedVideoMark) = .ok videos)
    (hv : v ∈ videos)
    (htr : processBestFrames cfg entries batches = (tr, none)) :
    (∃ pre post, tr = pre ++ Event.rename v.name :: post
        ∧ (∀ e ∈ post, eventVideo e ≠ some v.name)
        ∧ (∀ e ∈ pre, (∃ b, e = Event.save v.name b)
            ∨ eventVideo e ≠ some v.name))
    ∧ ∀ w, ((∃ k, Event.save w k ∈ tr) ∨ Event.rename w ∈ tr) →
        strStartsWith w cfg.processedVideoMark = false := by
  have hveq : videos
      = entries.filter
          (entryMatches cfg.video_extensions (some cfg.processedVideoMark)) :=
    list_input_ok_eq hlist
  have hX := htr.symm.trans (by
    unfold processBestFrames
    rw [hlist])
  have htr' : tr
      = (if cfg.all_frames then [] else [Event.initEvaluator])
        ++ (videos.map (fun u =>
            extract_best_frames_events u.name (batches u.name)
              ++ [Event.rename u.name])).flatten :=
    congrArg Prod.fst hX
  have hinit : ∀ e ∈ (if cfg.all_frames then ([] : List Event)
      else [Event.initEvaluator]), eventVideo e = none := by
    intro e he
    by_cases hf : cfg.all_frames
    · rw [if_pos hf] at he
      exact absurd he (List.not_mem_nil e)
    · rw [if_neg hf] at he
      simp only [List.mem_singleton] at he
      subst he
      rfl
  have hvnd : (videos.map FileEntry.name).Nodup := by
    rw [hveq]
    exact List.Nodup.sublist
      (List.Sublist.map _ (List.filter_sublist entries)) hnd
  obtain ⟨l1, l2, hsplit⟩ := List.append_of_mem hv
  have hnm : v.name ∉ l1.map FileEntry.name ∧ v.name ∉ l2.map FileEntry.name := by
    rw [hsplit] at hvnd
    simp only [List.map_append, List.map_cons] at hvnd
    rw [List.nodup_append] at hvnd
    obtain ⟨hn1, hn2, hdisj⟩ := hvnd
    rw [List.nodup_cons] at hn2
    exact ⟨fun hmem => hdisj hmem (List.mem_cons_self _ _), hn2.1⟩
  constructor
  · rw [htr', hsplit]
    exact flatten_videoEvents_split batches _ hinit l1 l2 v hnm.1 hnm.2
  · have hW : ∀ (e : Event) (w : String), e ∈ tr → eventVideo e = some w →
        strStartsWith w cfg.processedVideoMark = false := by
      intro e w he hev
      rw [htr'] at he
      rcases List.mem_append.mp he with h0 | hF
      · rw [hinit e h0] at hev
        exact absurd hev (by simp)
      · obtain ⟨lst, hlst, hel⟩ := List.mem_flatten.mp hF
        obtain ⟨u, hu, rfl⟩ := List.mem_map.mp hlst
        have h2 := eventVideo_of_mem_videoEvents hel
        rw [h2] at hev
        obtain rfl : u.name = w := Option.some.inj hev
        have hmem : u ∈ entries.filter
            (entryMatches cfg.video_extensions (some cfg.processedVideoMark)) := by
          rw [← hveq]
          exact hu
        have hmatch := List.of_mem_filter hmem
        simp only [entryMatches, Bool.and_eq_true, Bool.not_eq_true',
          decide_eq_true_eq] at hmatch
        exact hmatch.2
    intro w hw
    rcases hw with ⟨k, hk⟩ | hr
    · exact hW _ w hk rfl
    · exact hW _ w hr rfl

/-- C8 witness: directory `[a.mp4, frames_extracted_b.mp4, c.mp4]` with
default configuration, each video yielding batches `[[1], [], [2]]`;
the discovered videos are `a.mp4` and `c.mp4` and the trace saves both
batches of each video before renaming it. -/
theorem mark_done_ordering_witness :
    (([⟨"a.mp4", true⟩, ⟨"frames_extracted_b.mp4", true⟩,
        ⟨"c.mp4", true⟩] : List FileEntry).map FileEntry.name).Nodup
    ∧ list_input_directory_files
        [⟨"a.mp4", true⟩, ⟨"frames_extracted_b.mp4", true⟩, ⟨"c.mp4", true⟩]
        defaultConfig.video_extensions (some defaultConfig.processedVideoMark)
      = .ok [⟨"a.mp4", true⟩, ⟨"c.mp4", true⟩]
    ∧ (⟨"a.mp4", true⟩ : FileEntry) ∈
        ([⟨"a.mp4", true⟩, ⟨"c.mp4", true⟩] : List FileEntry)
    ∧ processBestFrames defaultConfig
        [⟨"a.mp4", true⟩, ⟨"frames_extracted_b.mp4", true⟩, ⟨"c.mp4", true⟩]
        (fun _ => [[1], [], [2]] : String → List (List Nat))
      = ([Event.initEvaluator,
          Event.save "a.mp4" 0, Event.save "a.mp4" 2, Event.rename "a.mp4",
          Event.save "c.mp4" 0, Event.save "c.mp4" 2, Event.rename "c.mp4"],
         none)
    ∧ ((∃ pre post,
          [Event.initEvaluator,
           Event.save "a.mp4" 0, Event.save "a.mp4" 2, Event.rename "a.mp4",
           Event.save "c.mp4" 0, Event.save "c.mp4" 2, Event.rename "c.mp4"]
            = pre ++ Event.rename (FileEntry.name ⟨"a.mp4", true⟩) :: post
          ∧ (∀ e ∈ post,
              eventVideo e ≠ some (FileEntry.name ⟨"a.mp4", true⟩))
          ∧ (∀ e ∈ pre,
              (∃ b, e = Event.save (FileEntry.name ⟨"a.mp4", true⟩) b)
                ∨ eventVideo e ≠ some (FileEntry.name ⟨"a.mp4", true⟩)))
       ∧ ∀ w, ((∃ k, Event.save w k ∈
              [Event.initEvaluator,
               Event.save "a.mp4" 0, Event.save "a.mp4" 2,
               Event.rename "a.mp4",
               Event.save "c.mp4" 0, Event.save "c.mp4" 2,
               Event.rename "c.mp4"])
            ∨ Event.rename w ∈
              [Event.initEvaluator,
               Event.save "a.mp4" 0, Event.save "a.mp4" 2,
               Event.rename "a.mp4",
               Event.save "c.mp4" 0, Event.save "c.mp4" 2,
               Event.rename "c.mp4"]) →
          strStartsWith w defaultConfig.processedVideoMark = false) :=
  ⟨by decide, by rfl, by decide, by rfl,
   mark_done_ordering defaultConfig
     [⟨"a.mp4", true⟩, ⟨"frames_extracted_b.mp4", true⟩, ⟨"c.mp4", true⟩]
     (fun _ => [[1], [], [2]]) [⟨"a.mp4", true⟩, ⟨"c.mp4", true⟩]
     ⟨"a.mp4", true⟩
     [Event.initEvaluator,
      Event.save "a.mp4" 0, Event.save "a.mp4" 2, Event.rename "a.mp4",
      Event.save "c.mp4" 0, Event.save "c.mp4" 2, Event.rename "c.mp4"]
     (by decide) (by rfl) (by decide) (by rfl)⟩

/-- C9: when no entry of the input directory is a regular file with a
matching configured extension (and, for the best-frames pipeline,
without the processed-video marker), the pipeline fails with
`EmptyInputDirectoryError` having emitted no effect at all — no
evaluator construction, no scoring, no saved image and no rename. -/
theorem empty_input_failure {α} (cfg : ExtractorConfig)
    (entries : List FileEntry) (batches : String → List (List α)) :
    ((∀ e ∈ entries,
        entryMatches cfg.video_extensions (some cfg.processedVideoMark) e
          = false) →
      processBestFrames cfg entries batches
        = ([], some .emptyInputDirectory))
    ∧ ((∀ e ∈ entries, entryMatches cfg.images_extensions none e = false) →
      processTopImages cfg entries = ([], some .emptyInputDirectory)) := by
  constructor
  · intro h
    have hfil : entries.filter
        (entryMatches cfg.video_extensions (some cfg.processedVideoMark))
          = [] :=
      List.filter_eq_nil.mpr (fun e he => by simp [h e he])
    simp [processBestFrames, list_input_directory_files, hfil]
  · intro h
    have hfil : entries.filter (entryMatches cfg.images_extensions none)
        = [] :=
      List.filter_eq_nil.mpr (fun e he => by simp [h e he])
    simp [processTopImages, list_input_directory_files, hfil]

/-- C9 witness: a directory holding a text file, an already-marked
video and a subdirectory named like a video — neither pipeline finds
an input and both fail without effects. -/
theorem empty_input_failure_witness :
    (∀ e ∈ ([⟨"notes.txt", true⟩, ⟨"frames_extracted_a.mp4", true⟩,
        ⟨"clips.mp4", false⟩] : List FileEntry),
      entryMatches defaultConfig.video_extensions
        (some defaultConfig.processedVideoMark) e = false)
    ∧ (∀ e ∈ ([⟨"notes.txt", true⟩, ⟨"frames_extracted_a.mp4", true⟩,
        ⟨"clips.mp4", false⟩] : List FileEntry),
      entryMatches defaultConfig.images_extensions none e = false)
    ∧ processBestFrames defaultConfig
        [⟨"notes.txt", true⟩, ⟨"frames_extracted_a.mp4", true⟩,
         ⟨"clips.mp4", false⟩]
        (fun _ => [[1]] : String → List (List Nat))
      = ([], some .emptyInputDirectory)
    ∧ processTopImages defaultConfig
        [⟨"notes.txt", true⟩, ⟨"frames_extracted_a.mp4", true⟩,
         ⟨"clips.mp4", false⟩]
      = ([], some .emptyInputDirectory) :=
  ⟨by decide, by decide,
   (empty_input_failure defaultConfig
     [⟨"notes.txt", true⟩, ⟨"frames_extracted_a.mp4", true⟩,
      ⟨"clips.mp4", false⟩]
     (fun _ => [[1]])).1 (by decide),
   (empty_input_failure defaultConfig
     [⟨"notes.txt", true⟩, ⟨"frames_extracted_a.mp4", true⟩,
      ⟨"clips.mp4", false⟩]
     (fun _ => ([[1]] : List (List Nat)))).2 (by decide)⟩

/-- C10: once `_NIMAModel._model` is populated, `get_model` returns the
cached model and leaves both class fields untouched, ignoring its
`config` argument entirely (in particular any different weights
settings); after `reset`, `get_model` builds and caches a model from
the new config's weights path. -/
theorem sticky_model_cache {μ} (createModel : String → μ) (s : NIMAState μ)
    (m : μ) (config : ExtractorConfig) (h : s.model = some m) :
    get_model createModel s config = (m, s)
    ∧ get_model createModel (nimaReset μ) config
      = (createModel (modelWeightsPath config),
         ⟨some config, some (createModel (modelWeightsPath config))⟩) := by
  constructor
  · simp [get_model, h]
  · rfl

/-- C10 witness: a cached model (represented by the number 7) is
returned unchanged for a second job whose config names different
weights. -/
theorem sticky_model_cache_witness :
    ((⟨some defaultConfig, some 7⟩ : NIMAState Nat).model = some 7)
    ∧ (get_model String.length (⟨some defaultConfig, some 7⟩ : NIMAState Nat)
          { defaultConfig with weights_directory := "/second_job",
                               weights_filename := "other.h5" }
        = (7, ⟨some defaultConfig, some 7⟩)
       ∧ get_model String.length (nimaReset Nat)
            { defaultConfig with weights_directory := "/second_job",
                                 weights_filename := "other.h5" }
          = (String.length (modelWeightsPath
                { defaultConfig with weights_directory := "/second_job",
                                     weights_filename := "other.h5" }),
             ⟨some { defaultConfig with weights_directory := "/second_job",
                                        weights_filename := "other.h5" },
              some (String.length (modelWeightsPath
                { defaultConfig with weights_directory := "/second_job",
                                     weights_filename := "other.h5" }))⟩)) :=
  ⟨rfl,
   sticky_model_cache String.length ⟨some defaultConfig, some 7⟩ 7
     { defaultConfig with weights_directory := "/second_job",
                          weights_filename := "other.h5" } rfl⟩

end PerfectFrame
